import Mathlib

/-!
# Verification of the anxiety-attack dashboard data pipeline (`layout.py`)

Shallow embedding of the single-file dashboard: the Dataset Loader
(header trimming, required-column check, numeric coercion, row dropping),
the Metrics View (column means), the Chart View (Pearson correlation
heatmap), the Scenario Estimator (fixed arithmetic formula), and the
Report View (case-insensitive substring filter and full-table CSV export).

Cells of the in-memory table are either missing (pandas `NaN`), a raw
string, or a number (modelled over `ℚ`).  Library calls (`pd.to_numeric`,
`df.dropna`, `Series.str.contains` on literal search strings, `df.corr`,
`df.to_csv`) are embedded by their documented semantics on the value
space this program uses.
-/

namespace Anxiety

/-- A cell of the in-memory table: missing (pandas `NaN`), a raw string,
or a numeric value (real numbers modelled by `ℚ`). -/
inductive Cell where
  | missing : Cell
  | str : String → Cell
  | num : ℚ → Cell
  deriving DecidableEq, Repr

/-- A row keyed by column name, as produced by parsing a CSV with a header. -/
def Row : Type := List (String × Cell)

instance : DecidableEq Row := by
  unfold Row
  exact inferInstance

/-- An uploaded table: the header (column names, `df.columns`) and the rows. -/
structure RawTable where
  header : List String
  rows : List Row
  deriving DecidableEq

/-- `df[col]` for one row: the first cell stored under `col`, missing if absent. -/
def getCell (r : Row) (c : String) : Cell :=
  (List.lookup c r).getD Cell.missing

/-- The 9 required column names (`required_columns` in `layout.py`). -/
def required_columns : List String :=
  ["Gender", "Occupation", "Stress Level (1-10)", "Heart Rate (bpm during attack)",
   "Breathing Rate (breaths/min)", "Caffeine Intake (mg/day)",
   "Alcohol Consumption (drinks/week)", "Severity of Anxiety Attack (1-10)", "Sleep Hours"]

/-- The 7 numeric-designated columns (`required_columns[2:]` in `layout.py`). -/
def numeric_columns : List String := required_columns.drop 2

/-- Surrounding-whitespace trimming on a character list. -/
def trimChars (cs : List Char) : List Char :=
  ((cs.dropWhile Char.isWhitespace).reverse.dropWhile Char.isWhitespace).reverse

/-- `str.strip()`: drop surrounding whitespace from a string. -/
def strTrim (s : String) : String := ⟨trimChars s.toList⟩

/-- Lower-casing of a string, character by character. -/
def strLower (s : String) : String := ⟨s.toList.map Char.toLower⟩

/-- A digit string read as a natural number. -/
def natOfDigits (cs : List Char) : ℕ :=
  cs.foldl (fun acc c => acc * 10 + (c.toNat - 48)) 0

/-- Unsigned decimal literal: digits, optionally followed by `.` and digits. -/
def parseUnsigned (cs : List Char) : Option ℚ :=
  let ip := cs.takeWhile Char.isDigit
  let rest := cs.dropWhile Char.isDigit
  match rest with
  | [] => if ip.isEmpty then none else some (natOfDigits ip)
  | '.' :: frac =>
      if frac.all Char.isDigit && !(ip.isEmpty && frac.isEmpty) then
        some ((natOfDigits ip : ℚ) + (natOfDigits frac : ℚ) / (10 ^ frac.length))
      else none
  | _ => none

/-- `pd.to_numeric` applied to one string: an optionally signed decimal
literal (surrounding whitespace ignored), `none` on failure. -/
def parseNumeric (s : String) : Option ℚ :=
  match (strTrim s).toList with
  | '-' :: cs => (parseUnsigned cs).map (fun q => -q)
  | '+' :: cs => parseUnsigned cs
  | cs => parseUnsigned cs

/-- `pd.to_numeric(·, errors="coerce")` on one cell: numbers pass through,
strings are parsed, anything unparsable becomes missing (`NaN`). -/
def coerceCell : Cell → Cell
  | Cell.missing => Cell.missing
  | Cell.num q => Cell.num q
  | Cell.str s =>
      match parseNumeric s with
      | some q => Cell.num q
      | none => Cell.missing

/-- One keyed cell after the coercion loop: entries under a numeric-designated
column are coerced, all others are untouched. -/
def coerceEntry (kv : String × Cell) : String × Cell :=
  if kv.1 ∈ numeric_columns then (kv.1, coerceCell kv.2) else kv

/-- The loop `for col in required_columns[2:]: df[col] = pd.to_numeric(df[col], errors="coerce")`
applied to one row: coerce exactly the numeric-designated columns. -/
def coerceRow (r : Row) : Row :=
  r.map coerceEntry

/-- `df.dropna(subset=required_columns)` survival test for one row: no
missing value in any of the 9 required columns. -/
def rowComplete (r : Row) : Bool :=
  required_columns.all (fun c => getCell r c ≠ Cell.missing)

/-- Numeric coercion followed by `dropna` over the required columns. -/
def validateRows (rows : List Row) : List Row :=
  (rows.map coerceRow).filter rowComplete

/-- `df.columns = df.columns.str.strip()`: trim header names everywhere. -/
def trimTable (t : RawTable) : RawTable :=
  ⟨t.header.map strTrim, t.rows.map (fun r => r.map (fun kv => (strTrim kv.1, kv.2)))⟩

/-- `missing_cols = [col for col in required_columns if col not in df.columns]`. -/
def missing_cols (t : RawTable) : List String :=
  required_columns.filter (fun c => ¬ c ∈ t.header)

/-- The Dataset Loader (`layout.py` lines 22–40): trim headers, check the
required columns, coerce the numeric columns, drop incomplete rows.  A
missing column yields the error carrying the missing names (`df = None`). -/
def loadDataset (t : RawTable) : Except (List String) RawTable :=
  let t' := trimTable t
  let m := missing_cols t'
  if m.isEmpty then Except.ok ⟨t'.header, validateRows t'.rows⟩ else Except.error m

instance {ε α : Type} [DecidableEq ε] [DecidableEq α] : DecidableEq (Except ε α)
  | Except.error a, Except.error b =>
      if h : a = b then isTrue (by rw [h]) else isFalse (fun hc => h (by injection hc))
  | Except.error _, Except.ok _ => isFalse (fun hc => Except.noConfusion hc)
  | Except.ok _, Except.error _ => isFalse (fun hc => Except.noConfusion hc)
  | Except.ok a, Except.ok b =>
      if h : a = b then isTrue (by rw [h]) else isFalse (fun hc => h (by injection hc))

/-- The dataset held by the app after an upload event: `None` when no file
was uploaded or validation failed. -/
def datasetState (upload : Option RawTable) : Option RawTable :=
  match upload with
  | none => none
  | some t => (loadDataset t).toOption

/-! ## Rounding and means -/

/-- Python `round` on an integer-scaled value: round half to even. -/
def roundHalfEven (q : ℚ) : ℤ :=
  if q - ⌊q⌋ < 1 / 2 then ⌊q⌋
  else if q - ⌊q⌋ > 1 / 2 then ⌊q⌋ + 1
  else if ⌊q⌋ % 2 = 0 then ⌊q⌋ else ⌊q⌋ + 1

/-- Python `round(x, 2)`. -/
def round2 (q : ℚ) : ℚ := (roundHalfEven (q * 100) : ℚ) / 100

/-- `np.mean` of a list of numbers. -/
def listMean (l : List ℚ) : ℚ := l.sum / l.length

/-- The numeric values present in one column (`df[col]` without its `NaN`
entries, the values a pandas `mean`/`corr` aggregates over). -/
def colVals (rows : List Row) (c : String) : List ℚ :=
  rows.filterMap (fun r =>
    match getCell r c with
    | Cell.num q => some q
    | _ => none)

/-- `df[col].mean()`: `NaN` (here `none`) when no numeric values exist,
otherwise the arithmetic mean of the numeric values. -/
def colMean (rows : List Row) (c : String) : Option ℚ :=
  let vs := colVals rows c
  if vs.isEmpty then none else some (vs.sum / vs.length)

/-- The five labelled summary cards of the Home page. -/
structure Metrics where
  avgStress : Option ℚ
  avgHeartRate : Option ℚ
  avgBreathingRate : Option ℚ
  avgCaffeine : Option ℚ
  avgAlcohol : Option ℚ
  deriving DecidableEq, Repr

/-- The Metrics View (`layout.py` lines 48–63): the mean of each of the five
displayed columns, rounded to 2 decimal places (`round(NaN, 2)` is `NaN`,
modelled by `Option.map`). -/
def metricsView (d : RawTable) : Metrics :=
  ⟨(colMean d.rows "Stress Level (1-10)").map round2,
   (colMean d.rows "Heart Rate (bpm during attack)").map round2,
   (colMean d.rows "Breathing Rate (breaths/min)").map round2,
   (colMean d.rows "Caffeine Intake (mg/day)").map round2,
   (colMean d.rows "Alcohol Consumption (drinks/week)").map round2⟩

/-! ## Scenario Estimator -/

/-- The 8 values entered on the Predictions form. -/
structure ScenarioInput where
  gender : String
  occupation : String
  stress_level : ℚ
  heart_rate : ℚ
  breathing_rate : ℚ
  caffeine : ℚ
  alcohol : ℚ
  sleep_hours : ℚ
  deriving DecidableEq, Repr

/-- `np.mean([stress_level, heart_rate / 20, breathing_rate / 5, caffeine / 100, alcohol])`
(`layout.py` line 112). -/
def predicted_severity (i : ScenarioInput) : ℚ :=
  listMean [i.stress_level, i.heart_rate / 20, i.breathing_rate / 5, i.caffeine / 100, i.alcohol]

/-- The displayed score: `round(predicted_severity, 2)` (`layout.py` line 113). -/
def scenarioDisplay (i : ScenarioInput) : ℚ := round2 (predicted_severity i)

/-! ## Report View: search filter -/

/-- `needle` occurs at the start of `hay`. -/
def startsWithChars : List Char → List Char → Bool
  | _, [] => true
  | [], _ :: _ => false
  | a :: as, b :: bs => a = b && startsWithChars as bs

/-- `needle` occurs somewhere inside `hay` (plain substring search). -/
def containsChars : List Char → List Char → Bool
  | [], needle => startsWithChars [] needle
  | a :: as, needle => startsWithChars (a :: as) needle || containsChars as needle

/-- Literal case-insensitive substring test on one cell: `True` on a string
cell whose lowered value contains the lowered search text, `False` on
missing or non-string cells.  This is the substring condition the spec
describes; `Series.str.contains` itself treats the search text as a regular
expression and agrees with this test only on metacharacter-free search
strings (see `cellContainsRe`). -/
def cellContainsCI (c : Cell) (s : String) : Bool :=
  match c with
  | Cell.str v => containsChars (strLower v).toList (strLower s).toList
  | _ => false

/-- The literal-substring row mask: the Gender cell or the Occupation cell
contains the search text as a case-insensitive substring. -/
def rowMatches (s : String) (r : Row) : Bool :=
  cellContainsCI (getCell r "Gender") s || cellContainsCI (getCell r "Occupation") s

/-- Rows whose literal-substring mask entry is true, in order. -/
def filteredRows (s : String) (rows : List Row) : List Row :=
  rows.filter (rowMatches s)

/-- The regular-expression metacharacters of Python `re` (braces written by
code point). -/
def reMeta (c : Char) : Bool :=
  c = '.' || c = '^' || c = '$' || c = '*' || c = '+' || c = '?' ||
  c = '\x7b' || c = '\x7d' || c = '[' || c = ']' || c = '\\' || c = '|' ||
  c = '(' || c = ')'

/-- `re.search` anchored at the start, with `re.IGNORECASE`, for the pattern
fragment consisting of literal characters and the `.` wildcard: `.` matches
any character except a newline, a literal matches case-insensitively.  Every
metacharacter-free search string is a pure-literal pattern of this fragment. -/
def startsWithRe : List Char → List Char → Bool
  | _, [] => true
  | [], _ :: _ => false
  | a :: as, b :: bs =>
      ((b = '.' && !(a = '\n')) || b.toLower = a.toLower) && startsWithRe as bs

/-- `re.search` with `re.IGNORECASE` anywhere in the text, for the
literal-plus-dot pattern fragment. -/
def containsRe : List Char → List Char → Bool
  | [], pat => startsWithRe [] pat
  | a :: as, pat => startsWithRe (a :: as) pat || containsRe as pat

/-- `Series.str.contains(search, case=False, na=False)` on one cell with its
default `regex=True` semantics, modelled on the literal-plus-dot pattern
fragment (theorems invoke it only there; other metacharacters, including
invalid patterns such as "(" that raise `re.error`, stay outside the model):
regex match on string cells, `False` on missing or non-string cells. -/
def cellContainsRe (c : Cell) (s : String) : Bool :=
  match c with
  | Cell.str v => containsRe v.toList s.toList
  | _ => false

/-- The boolean mask of `layout.py` line 123 under regex semantics. -/
def rowMatchesRe (s : String) (r : Row) : Bool :=
  cellContainsRe (getCell r "Gender") s || cellContainsRe (getCell r "Occupation") s

/-- `filtered_df` under regex semantics: the rows whose mask entry is true,
in order. -/
def filteredRowsRe (s : String) (rows : List Row) : List Row :=
  rows.filter (rowMatchesRe s)

/-! ## Chart View: correlation heatmap -/

/-- `n·Σxy − Σx·Σy`, the scaled covariance of two paired lists. -/
def covSum (xs ys : List ℚ) : ℚ :=
  (xs.length : ℚ) * (List.zipWith (fun a b => a * b) xs ys).sum - xs.sum * ys.sum

/-- `n·Σx² − (Σx)²`, the scaled variance of a list; zero iff the Pearson
denominator degenerates (fewer than two points, or no spread). -/
def varSum (xs : List ℚ) : ℚ := covSum xs xs

/-- Pearson correlation of two paired samples, as computed by `df.corr()`:
`NaN` (`none`) when either scaled variance vanishes (single row, empty
column, or zero spread), otherwise `cov / (σx·σy)`. -/
noncomputable def pearson (xs ys : List ℚ) : Option ℝ :=
  if varSum xs = 0 ∨ varSum ys = 0 then none
  else some ((covSum xs ys : ℝ) / Real.sqrt ((varSum xs : ℝ) * (varSum ys : ℝ)))

/-- One entry of the `df.corr()` matrix: the Pearson coefficient of the
numeric values of two columns. -/
noncomputable def corrEntry (d : RawTable) (c₁ c₂ : String) : Option ℝ :=
  pearson (colVals d.rows c₁) (colVals d.rows c₂)

/-- The heatmap data of `layout.py` line 90: the pairwise correlation matrix
over the numeric columns of the dataset (the 7 coerced columns). -/
noncomputable def heatmapEntries (d : RawTable) : List (List (Option ℝ)) :=
  numeric_columns.map (fun c₁ => numeric_columns.map (fun c₂ => corrEntry d c₁ c₂))

/-! ## CSV serialization (`df.to_csv(index=False)` and its re-parse)

Minimal-quoting CSV: a field is quoted exactly when it contains a comma, a
double quote or a newline; inside quotes, a double quote is doubled.  Each
record ends with a newline, as `to_csv` emits. -/

/-- Characters that force a field to be quoted. -/
def specialChar (c : Char) : Bool := c = ',' || c = '"' || c = '\n'

/-- A field needs quoting iff it contains a special character. -/
def fieldNeedsQuote (f : List Char) : Bool := f.any specialChar

/-- Double every quote character inside a field body. -/
def escField : List Char → List Char
  | [] => []
  | c :: cs => if c = '"' then '"' :: '"' :: escField cs else c :: escField cs

/-- Encode one field with minimal quoting. -/
def encField (f : List Char) : List Char :=
  if fieldNeedsQuote f then '"' :: (escField f ++ ['"']) else f

/-- Encode one record: fields joined by commas. -/
def encLine : List (List Char) → List Char
  | [] => []
  | [f] => encField f
  | f :: f₂ :: fs => encField f ++ ',' :: encLine (f₂ :: fs)

/-- Encode a table: each record followed by a newline. -/
def encTable : List (List (List Char)) → List Char
  | [] => []
  | l :: ls => encLine l ++ '\n' :: encTable ls

/-- CSV reader, one character at a time.  State: remaining input, inside-quotes
flag, current field, current record, completed records.  A doubled quote
inside quotes is a literal quote; at end of input a pending nonempty
field/record is flushed. -/
def scanCSV : List Char → Bool → List Char → List (List Char) →
    List (List (List Char)) → List (List (List Char))
  | [], _, f, l, t => if f = [] ∧ l = [] then t else t ++ [l ++ [f]]
  | [c], true, f, l, t =>
      if c = '"' then (if f = [] ∧ l = [] then t else t ++ [l ++ [f]])
      else t ++ [l ++ [f ++ [c]]]
  | c :: c₂ :: cs, true, f, l, t =>
      if c = '"' then
        (if c₂ = '"' then scanCSV cs true (f ++ ['"']) l t
         else scanCSV (c₂ :: cs) false f l t)
      else scanCSV (c₂ :: cs) true (f ++ [c]) l t
  | c :: cs, false, f, l, t =>
      if c = '"' then scanCSV cs true f l t
      else if c = ',' then scanCSV cs false [] (l ++ [f]) t
      else if c = '\n' then scanCSV cs false [] [] (t ++ [l ++ [f]])
      else scanCSV cs false (f ++ [c]) l t

/-- Encode a table of string fields to a CSV text. -/
def encodeCSV (t : List (List String)) : String :=
  ⟨encTable (t.map (fun row => row.map String.toList))⟩

/-- Parse a CSV text back into a table of string fields. -/
def decodeCSV (s : String) : List (List String) :=
  (scanCSV s.toList false [] [] []).map (fun row => row.map (fun cs => (⟨cs⟩ : String)))

/-- How a cell prints in the exported CSV (`NaN` prints as the empty field). -/
def renderCell : Cell → String
  | Cell.missing => ""
  | Cell.str s => s
  | Cell.num q => toString q

/-- The dataset as a table of printed fields: header record first, then one
record per row, cells taken in header order. -/
def tableOf (d : RawTable) : List (List String) :=
  d.header :: d.rows.map (fun r => d.header.map (fun c => renderCell (getCell r c)))

/-- `df.to_csv(index=False).encode('utf-8')` (`layout.py` line 129): the CSV
text of the full dataset, nothing prepended (no byte-order preamble). -/
def exportCSV (d : RawTable) : String := encodeCSV (tableOf d)

/-- The fixed download name of `layout.py` line 130. -/
def reportFileName : String := "Anxiety_Report.csv"

/-! ## The four pages, as functions of the dataset state -/

/-- Home page: metrics, or nothing when no dataset is loaded. -/
def metricsPage (st : Option RawTable) : Option Metrics := st.map metricsView

/-- Data Visualization page: the heatmap data, or nothing. -/
noncomputable def chartPage (st : Option RawTable) : Option (List (List (Option ℝ))) :=
  st.map heatmapEntries

/-- Predictions page: the displayed score for the submitted form, or nothing. -/
def predictionsPage (st : Option RawTable) (i : ScenarioInput) : Option ℚ :=
  st.map (fun _ => scenarioDisplay i)

/-- Reports page: the filtered preview together with the export content, or
nothing.  The export always serializes the full dataset `df`, not
`filtered_df`. -/
def reportsPage (st : Option RawTable) (s : String) : Option (List Row × String) :=
  st.map (fun d => (filteredRows s d.rows, exportCSV d))

/-- The numeric value stored in a cell of a row, defaulting to 0. -/
def getNum (r : Row) (c : String) : ℚ :=
  match getCell r c with
  | Cell.num q => q
  | _ => 0

/-! ## Theorems -/

/-- Rounding an integer-valued quantity changes nothing. -/
theorem roundHalfEven_intCast (n : ℤ) : roundHalfEven (n : ℚ) = n := by
  have h : ((n : ℚ) - ⌊(n : ℚ)⌋ : ℚ) = 0 := by simp
  rw [roundHalfEven, h]
  norm_num

/-- Evaluation rule for `round2` when the scaled value is an integer. -/
theorem round2_eq (q : ℚ) (n : ℤ) (h : q * 100 = (n : ℚ)) : round2 q = (n : ℚ) / 100 := by
  rw [round2, h, roundHalfEven_intCast]

/-- C3: the Scenario Estimator computes the arithmetic mean of exactly the
five transformed terms — stress as-is, heart rate / 20, breathing rate / 5,
caffeine / 100, alcohol as-is — rounded to 2 decimal places, and at inputs
(stress 5, heart rate 80, breathing rate 20, caffeine 100, alcohol 2) the
displayed score is 3.20. -/
theorem c3_scenario_formula :
    (∀ i : ScenarioInput,
        scenarioDisplay i =
          round2 ((i.stress_level + i.heart_rate / 20 + i.breathing_rate / 5 +
            i.caffeine / 100 + i.alcohol) / 5)) ∧
    scenarioDisplay ⟨"Male", "Engineer", 5, 80, 20, 100, 2, 7⟩ = 16 / 5 ∧
    (16 : ℚ) / 5 = 3.20 := by
  have hm : ∀ i : ScenarioInput,
      predicted_severity i =
        (i.stress_level + i.heart_rate / 20 + i.breathing_rate / 5 +
          i.caffeine / 100 + i.alcohol) / 5 := by
    intro i
    simp only [predicted_severity, listMean, List.sum_cons, List.sum_nil,
      List.length_cons, List.length_nil]
    norm_num
    ring
  refine ⟨fun i => by rw [scenarioDisplay, hm i], ?_, by norm_num⟩
  rw [scenarioDisplay, hm]
  rw [round2_eq _ 320 (by norm_num)]
  norm_num

/-- C4: the displayed severity score depends only on stress level, heart
rate, breathing rate, caffeine and alcohol; two form submissions which agree
on those five values but differ arbitrarily in gender, occupation or sleep
hours produce the same score. -/
theorem c4_score_ignores_sleep_gender_occupation (i₁ i₂ : ScenarioInput)
    (h₁ : i₁.stress_level = i₂.stress_level) (h₂ : i₁.heart_rate = i₂.heart_rate)
    (h₃ : i₁.breathing_rate = i₂.breathing_rate) (h₄ : i₁.caffeine = i₂.caffeine)
    (h₅ : i₁.alcohol = i₂.alcohol) :
    scenarioDisplay i₁ = scenarioDisplay i₂ := by
  simp only [scenarioDisplay, predicted_severity, listMean, h₁, h₂, h₃, h₄, h₅]

/-- C4 witness: two submissions differing only in gender, occupation and
sleep hours get the same score. -/
theorem c4_witness :
    scenarioDisplay ⟨"Male", "Engineer", 5, 80, 20, 100, 2, 7⟩ =
      scenarioDisplay ⟨"Female", "Doctor", 5, 80, 20, 100, 2, 0⟩ :=
  c4_score_ignores_sleep_gender_occupation _ _ rfl rfl rfl rfl rfl

/-- C10: for any dataset and search string, the Filtered View is an
order-preserving subsequence of the dataset rows, each row occurs in it with
its original multiplicity when it matches and not at all otherwise, and the
Reports page still exports the unchanged full dataset. -/
theorem c10_filtered_view_subsequence (d : RawTable) (s : String) :
    (filteredRows s d.rows).Sublist d.rows ∧
    (∀ r : Row, (filteredRows s d.rows).count r =
        if rowMatches s r then d.rows.count r else 0) ∧
    (reportsPage (some d) s).map Prod.snd = some (exportCSV d) := by
  refine ⟨List.filter_sublist _, fun r => ?_, rfl⟩
  by_cases h : rowMatches s r
  · rw [if_pos h]
    exact List.count_filter h
  · rw [if_neg h]
    refine List.count_eq_zero.2 (fun hmem => h ?_)
    exact (List.mem_filter.1 hmem).2

/-- Membership in the validated rows: coerced and complete. -/
theorem mem_validateRows {rows : List Row} {r : Row} :
    r ∈ validateRows rows ↔ r ∈ rows.map coerceRow ∧ rowComplete r = true := by
  simp [validateRows, List.mem_filter]

/-- `rowComplete` spelled out over the required columns. -/
theorem rowComplete_iff {r : Row} :
    rowComplete r = true ↔ ∀ c ∈ required_columns, getCell r c ≠ Cell.missing := by
  simp [rowComplete, List.all_eq_true]

/-- C1: when all 9 required columns are present, loading succeeds and a row
survives iff, after coercion of the 7 numeric columns, it has no missing
value in any required column; every surviving row is complete on the
required columns, the surviving rows are a subsequence of the coerced rows
(nothing is added), and each one comes from an input row. -/
theorem c1_row_survival (t : RawTable)
    (h : ∀ c ∈ required_columns, c ∈ (trimTable t).header) :
    ∃ d, loadDataset t = Except.ok d ∧
      (∀ r : Row, r ∈ d.rows ↔
          r ∈ (trimTable t).rows.map coerceRow ∧ rowComplete r = true) ∧
      (∀ r ∈ d.rows, ∀ c ∈ required_columns, getCell r c ≠ Cell.missing) ∧
      d.rows.Sublist ((trimTable t).rows.map coerceRow) ∧
      (∀ r ∈ d.rows, ∃ r₀ ∈ t.rows,
          r = coerceRow (r₀.map (fun kv => (strTrim kv.1, kv.2)))) := by
  have hm : missing_cols (trimTable t) = [] := by
    rw [missing_cols, List.filter_eq_nil_iff]
    intro c hc
    simp [h c hc]
  refine ⟨⟨(trimTable t).header, validateRows (trimTable t).rows⟩, ?_, ?_, ?_, ?_, ?_⟩
  · simp [loadDataset, hm]
  · intro r
    exact mem_validateRows
  · intro r hr c hc
    exact rowComplete_iff.1 (mem_validateRows.1 hr).2 c hc
  · exact List.filter_sublist _
  · intro r hr
    obtain ⟨hr', -⟩ := mem_validateRows.1 hr
    obtain ⟨r₁, hr₁, rfl⟩ := List.mem_map.1 hr'
    obtain ⟨r₀, hr₀, rfl⟩ := List.mem_map.1 hr₁
    exact ⟨r₀, hr₀, rfl⟩

/-- C2: when at least one required column is absent after header trimming,
loading fails with exactly the missing column names, the dataset state is
empty, and all four pages compute nothing. -/
theorem c2_missing_columns (t : RawTable)
    (h : ∃ c ∈ required_columns, ¬ c ∈ (trimTable t).header) :
    ∃ m, loadDataset t = Except.error m ∧ m ≠ [] ∧
      (∀ c, c ∈ m ↔ c ∈ required_columns ∧ ¬ c ∈ (trimTable t).header) ∧
      datasetState (some t) = none ∧
      metricsPage (datasetState (some t)) = none ∧
      chartPage (datasetState (some t)) = none ∧
      (∀ i, predictionsPage (datasetState (some t)) i = none) ∧
      (∀ s, reportsPage (datasetState (some t)) s = none) := by
  obtain ⟨c, hc, hnc⟩ := h
  have hmem : c ∈ missing_cols (trimTable t) := by
    rw [missing_cols, List.mem_filter]
    exact ⟨hc, by simpa using hnc⟩
  have hne : missing_cols (trimTable t) ≠ [] := by
    intro heq
    rw [heq] at hmem
    exact absurd hmem (List.not_mem_nil c)
  have hload : loadDataset t = Except.error (missing_cols (trimTable t)) := by
    simp only [loadDataset]
    rw [if_neg]
    simp [List.isEmpty_iff, hne]
  have hstate : datasetState (some t) = none := by
    simp [datasetState, hload, Except.toOption]
  refine ⟨missing_cols (trimTable t), hload, hne, ?_, hstate, ?_, ?_, ?_, ?_⟩
  · intro c'
    simp [missing_cols, List.mem_filter]
  · simp [metricsPage, hstate]
  · simp [chartPage, hstate]
  · intro i
    simp [predictionsPage, hstate]
  · intro s
    simp [reportsPage, hstate]

/-- C9: a validated dataset with zero surviving rows flows through the
Metrics View unguarded: every column mean is `NaN` (`none`), rounding keeps
it `NaN`, and the view yields NaN-valued metrics instead of failing. -/
theorem c9_empty_dataset_metrics (t d : RawTable)
    (h : loadDataset t = Except.ok d) (he : d.rows = []) :
    metricsView d = ⟨none, none, none, none, none⟩ := by
  simp [metricsView, colMean, colVals, he]

/-! ## Concrete tables used by the witnesses -/

/-- A fully populated survey row. -/
def rowA : Row :=
  [("Gender", Cell.str "Male"), ("Occupation", Cell.str "Engineer"),
   ("Stress Level (1-10)", Cell.num 4), ("Heart Rate (bpm during attack)", Cell.num 80),
   ("Breathing Rate (breaths/min)", Cell.num 20), ("Caffeine Intake (mg/day)", Cell.num 100),
   ("Alcohol Consumption (drinks/week)", Cell.num 2),
   ("Severity of Anxiety Attack (1-10)", Cell.num 5), ("Sleep Hours", Cell.num 7)]

/-- A defective row: only its Gender cell is populated. -/
def rowBad : Row := [("Gender", Cell.str "Solo")]

/-- A row with Gender "Female", used by the search claims. -/
def rowF : Row := [("Gender", Cell.str "Female"), ("Occupation", Cell.str "Artist")]

/-- A well-formed upload with one complete and one defective row. -/
def tableA : RawTable := ⟨required_columns, [rowA, rowBad]⟩

/-- An upload missing 7 of the required columns. -/
def tableB : RawTable := ⟨["Gender", "Occupation"], [rowBad]⟩

/-- A well-formed upload whose single row is dropped by validation. -/
def tableC : RawTable := ⟨required_columns, [rowBad]⟩

/-- C1 witness: the mixed table loads and the survival characterization holds
on it. -/
theorem c1_witness :
    ∃ d, loadDataset tableA = Except.ok d ∧
      (∀ r : Row, r ∈ d.rows ↔
          r ∈ (trimTable tableA).rows.map coerceRow ∧ rowComplete r = true) ∧
      (∀ r ∈ d.rows, ∀ c ∈ required_columns, getCell r c ≠ Cell.missing) ∧
      d.rows.Sublist ((trimTable tableA).rows.map coerceRow) ∧
      (∀ r ∈ d.rows, ∃ r₀ ∈ tableA.rows,
          r = coerceRow (r₀.map (fun kv => (strTrim kv.1, kv.2)))) :=
  c1_row_survival tableA (by decide)

/-- C2 witness: the 7-columns-short table is rejected with the exact missing
names and all pages stay inert. -/
theorem c2_witness :
    ∃ m, loadDataset tableB = Except.error m ∧ m ≠ [] ∧
      (∀ c, c ∈ m ↔ c ∈ required_columns ∧ ¬ c ∈ (trimTable tableB).header) ∧
      datasetState (some tableB) = none ∧
      metricsPage (datasetState (some tableB)) = none ∧
      chartPage (datasetState (some tableB)) = none ∧
      (∀ i, predictionsPage (datasetState (some tableB)) i = none) ∧
      (∀ s, reportsPage (datasetState (some tableB)) s = none) :=
  c2_missing_columns tableB (by decide)

/-- C9 witness: the table whose only row is dropped yields all-NaN metrics. -/
theorem c9_witness :
    metricsView ⟨required_columns, []⟩ = ⟨none, none, none, none, none⟩ :=
  c9_empty_dataset_metrics tableC ⟨required_columns, []⟩ (by decide) rfl

/-- Coercion of a cell under a lookup: only the numeric columns change. -/
theorem getCell_coerceRow (r : Row) (c : String) :
    getCell (coerceRow r) c =
      if c ∈ numeric_columns then coerceCell (getCell r c) else getCell r c := by
  induction r with
  | nil => by_cases hc : c ∈ numeric_columns <;> simp [getCell, coerceRow, coerceCell, hc]
  | cons kv r ih =>
    obtain ⟨k, v⟩ := kv
    rw [coerceRow, List.map_cons]
    by_cases hk : k ∈ numeric_columns
    · rw [coerceEntry, if_pos hk]
      by_cases hck : c = k
      · subst hck
        simp [getCell, List.lookup, hk]
      · have hbeq : (c == k) = false := by simp [hck]
        simp only [getCell, List.lookup, hbeq]
        exact ih
    · rw [coerceEntry, if_neg hk]
      by_cases hck : c = k
      · subst hck
        simp [getCell, List.lookup, hk]
      · have hbeq : (c == k) = false := by simp [hck]
        simp only [getCell, List.lookup, hbeq]
        exact ih

/-- A coerced cell is missing or numeric, never a leftover string. -/
theorem coerceCell_missing_or_num (v : Cell) :
    coerceCell v = Cell.missing ∨ ∃ q, coerceCell v = Cell.num q := by
  cases v with
  | missing => exact Or.inl rfl
  | num q => exact Or.inr ⟨q, rfl⟩
  | str s =>
    cases hp : parseNumeric s with
    | none => exact Or.inl (by simp [coerceCell, hp])
    | some q => exact Or.inr ⟨q, by simp [coerceCell, hp]⟩

/-- Successful loading leaves every surviving row with a numeric value in
every numeric-designated column. -/
theorem loader_row_numeric (t d : RawTable) (h : loadDataset t = Except.ok d) :
    ∀ r ∈ d.rows, ∀ c ∈ numeric_columns, ∃ q, getCell r c = Cell.num q := by
  intro r hr c hc
  have hrows : d.rows = validateRows (trimTable t).rows := by
    rw [loadDataset] at h
    split at h
    · injection h with h'
      rw [← h']
    · exact absurd h (by simp)
  rw [hrows] at hr
  obtain ⟨hmem, hcomp⟩ := mem_validateRows.1 hr
  obtain ⟨r₀, -, rfl⟩ := List.mem_map.1 hmem
  have hne : getCell (coerceRow r₀) c ≠ Cell.missing :=
    rowComplete_iff.1 hcomp c (List.drop_subset 2 required_columns hc)
  rw [getCell_coerceRow, if_pos hc] at hne ⊢
  rcases coerceCell_missing_or_num (getCell r₀ c) with hm | hq
  · exact absurd hm hne
  · exact hq

/-- The numeric values of a column, when every row has one, are the per-row
lookups in order. -/
theorem colVals_eq_map {rows : List Row} {c : String}
    (h : ∀ r ∈ rows, ∃ q, getCell r c = Cell.num q) :
    colVals rows c = rows.map (fun r => getNum r c) := by
  induction rows with
  | nil => rfl
  | cons r rows ih =>
    obtain ⟨q, hq⟩ := h r (List.mem_cons_self r rows)
    have ih' := ih (fun r' hr' => h r' (List.mem_cons_of_mem r hr'))
    simp only [colVals] at ih' ⊢
    simp only [List.filterMap_cons, hq, List.map_cons]
    rw [ih']
    simp [getNum, hq]

/-- A column mean over rows that all carry a numeric value is the arithmetic
mean of the per-row values. -/
theorem colMean_eq {rows : List Row} {c : String}
    (hv : ∀ r ∈ rows, ∃ q, getCell r c = Cell.num q) (hne : rows ≠ []) :
    colMean rows c = some ((rows.map (fun r => getNum r c)).sum / rows.length) := by
  rw [colMean, colVals_eq_map hv]
  simp only [List.isEmpty_iff, List.map_eq_nil_iff, List.length_map]
  rw [if_neg hne]

/-- C7: on every nonempty validated dataset the Metrics View shows, for each
of the five displayed columns, the arithmetic mean of that column's values
rounded to 2 decimal places. -/
theorem c7_metrics_means (t d : RawTable)
    (h : loadDataset t = Except.ok d) (hne : d.rows ≠ []) :
    (metricsView d).avgStress =
        some (round2 ((d.rows.map (fun r => getNum r "Stress Level (1-10)")).sum /
          d.rows.length)) ∧
    (metricsView d).avgHeartRate =
        some (round2 ((d.rows.map (fun r => getNum r "Heart Rate (bpm during attack)")).sum /
          d.rows.length)) ∧
    (metricsView d).avgBreathingRate =
        some (round2 ((d.rows.map (fun r => getNum r "Breathing Rate (breaths/min)")).sum /
          d.rows.length)) ∧
    (metricsView d).avgCaffeine =
        some (round2 ((d.rows.map (fun r => getNum r "Caffeine Intake (mg/day)")).sum /
          d.rows.length)) ∧
    (metricsView d).avgAlcohol =
        some (round2 ((d.rows.map (fun r => getNum r "Alcohol Consumption (drinks/week)")).sum /
          d.rows.length)) := by
  have hnum := loader_row_numeric t d h
  have hcol : ∀ c ∈ numeric_columns,
      colMean d.rows c =
        some ((d.rows.map (fun r => getNum r c)).sum / d.rows.length) :=
    fun c hc => colMean_eq (fun r hr => hnum r hr c hc) hne
  refine ⟨?_, ?_, ?_, ?_, ?_⟩ <;>
    (simp only [metricsView]; rw [hcol _ (by decide)]; rfl)

/-- C7 witness: the single surviving row has Stress Level 4 and the displayed
average stress is 4.00. -/
theorem c7_witness :
    (metricsView ⟨required_columns, [rowA]⟩).avgStress = some 4 := by
  have h := c7_metrics_means tableA ⟨required_columns, [rowA]⟩ (by decide) (by decide)
  rw [h.1]
  have hg : getNum rowA "Stress Level (1-10)" = 4 := by decide
  simp only [List.map_cons, List.map_nil, List.sum_cons, List.sum_nil, List.length_cons,
    List.length_nil, hg]
  rw [show ((4 : ℚ) + 0) / ((0 + 1 : ℕ) : ℚ) = 4 by norm_num]
  rw [round2_eq 4 400 (by norm_num)]
  norm_num

/-- The scaled variance of an empty or one-point sample vanishes. -/
theorem varSum_of_short (xs : List ℚ) (h : xs.length ≤ 1) : varSum xs = 0 := by
  match xs with
  | [] => simp [varSum, covSum]
  | [x] => simp [varSum, covSum]
  | x :: y :: xs => simp at h

/-- The scaled variance of a constant sample vanishes. -/
theorem varSum_of_const (xs : List ℚ) (a : ℚ) (h : ∀ x ∈ xs, x = a) : varSum xs = 0 := by
  have hrep : xs = List.replicate xs.length a := List.eq_replicate_length.2 h
  rw [varSum, covSum, List.zipWith_same, hrep, List.map_replicate, List.sum_replicate,
    List.sum_replicate, List.length_replicate, nsmul_eq_mul, nsmul_eq_mul]
  ring

/-- A degenerate first sample makes the Pearson coefficient `NaN`. -/
theorem pearson_none_left {xs ys : List ℚ} (h : varSum xs = 0) : pearson xs ys = none := by
  rw [pearson, if_pos (Or.inl h)]

/-- A degenerate second sample makes the Pearson coefficient `NaN`. -/
theorem pearson_none_right {xs ys : List ℚ} (h : varSum ys = 0) : pearson xs ys = none := by
  rw [pearson, if_pos (Or.inr h)]

/-- C8: on a validated dataset the heatmap is the matrix of pairwise Pearson
coefficients over the numeric columns, and on degenerate input — at most one
row, or a zero-variance column — the affected entries are `NaN` markers
(`none`) rather than a crash (every entry is a total value). -/
theorem c8_heatmap_pearson (t d : RawTable) (h : loadDataset t = Except.ok d) :
    heatmapEntries d =
      numeric_columns.map (fun c₁ => numeric_columns.map (fun c₂ =>
        pearson (colVals d.rows c₁) (colVals d.rows c₂))) ∧
    (d.rows.length ≤ 1 → ∀ c₁ c₂ : String, corrEntry d c₁ c₂ = none) ∧
    (∀ c₁ c₂ : String, (∃ a, ∀ x ∈ colVals d.rows c₁, x = a) →
        corrEntry d c₁ c₂ = none ∧ corrEntry d c₂ c₁ = none) := by
  refine ⟨rfl, ?_, ?_⟩
  · intro hlen c₁ c₂
    have hv : varSum (colVals d.rows c₁) = 0 :=
      varSum_of_short _ (le_trans (List.length_filterMap_le _ _) hlen)
    exact pearson_none_left hv
  · rintro c₁ c₂ ⟨a, ha⟩
    have hv : varSum (colVals d.rows c₁) = 0 := varSum_of_const _ a ha
    exact ⟨pearson_none_left hv, pearson_none_right hv⟩

/-- C8 witness: a loaded single-row dataset has `NaN` in every heatmap cell;
here the stress/heart-rate cell. -/
theorem c8_witness :
    corrEntry ⟨required_columns, [rowA]⟩ "Stress Level (1-10)"
      "Heart Rate (bpm during attack)" = none :=
  (c8_heatmap_pearson tableA ⟨required_columns, [rowA]⟩ (by decide)).2.1 (by decide) _ _

/-- Prefix test spelled out as list structure. -/
theorem startsWithChars_iff (hay needle : List Char) :
    startsWithChars hay needle = true ↔ ∃ rest, hay = needle ++ rest := by
  induction needle generalizing hay with
  | nil => simp [startsWithChars]
  | cons b bs ih =>
    cases hay with
    | nil => simp [startsWithChars]
    | cons a as =>
      simp only [startsWithChars, Bool.and_eq_true, decide_eq_true_eq, ih, List.cons_append]
      constructor
      · rintro ⟨ha, rest, rfl⟩
        exact ⟨rest, by rw [ha]⟩
      · rintro ⟨rest, heq⟩
        injection heq with h₁ h₂
        exact ⟨h₁, rest, h₂⟩

/-- Substring test spelled out as list structure. -/
theorem containsChars_iff (hay needle : List Char) :
    containsChars hay needle = true ↔ ∃ pre post, hay = pre ++ needle ++ post := by
  induction hay with
  | nil =>
    simp only [containsChars, startsWithChars_iff]
    constructor
    · rintro ⟨rest, h⟩
      rcases List.append_eq_nil.1 h.symm with ⟨h₁, h₂⟩
      exact ⟨[], [], by simp [h₁]⟩
    · rintro ⟨pre, post, h⟩
      rcases List.append_eq_nil.1 (List.append_eq_nil.1 h.symm).1 with ⟨-, h₂⟩
      exact ⟨[], by simp [h₂]⟩
  | cons a as ih =>
    simp only [containsChars, Bool.or_eq_true, startsWithChars_iff, ih]
    constructor
    · rintro (⟨rest, h⟩ | ⟨pre, post, h⟩)
      · exact ⟨[], rest, by simp [h]⟩
      · exact ⟨a :: pre, post, by simp [h]⟩
    · rintro ⟨pre, post, h⟩
      cases pre with
      | nil => exact Or.inl ⟨post, by simpa using h⟩
      | cons p ps =>
        right
        rw [List.cons_append, List.cons_append] at h
        injection h with h₁ h₂
        exact ⟨ps, post, h₂⟩

/-- The empty needle is found in every haystack. -/
theorem containsChars_nil (hay : List Char) : containsChars hay [] = true := by
  cases hay <;> simp [containsChars, startsWithChars]

/-- The cell-level search test spelled out: a string cell with the lowered
search text as a substring of its lowered value. -/
theorem cellContainsCI_iff (c : Cell) (s : String) :
    cellContainsCI c s = true ↔
      ∃ v, c = Cell.str v ∧
        ∃ pre post, (strLower v).toList = pre ++ (strLower s).toList ++ post := by
  cases c with
  | missing => simp [cellContainsCI]
  | num q => simp [cellContainsCI]
  | str v => simp [cellContainsCI, containsChars_iff]

/-- On a dot-free pattern, the anchored fragment matcher is the literal
case-insensitive test on the lowered lists. -/
theorem startsWithRe_eq (pat : List Char) (hdot : ∀ c ∈ pat, c ≠ '.') :
    ∀ hay, startsWithRe hay pat =
      startsWithChars (hay.map Char.toLower) (pat.map Char.toLower) := by
  induction pat with
  | nil => intro hay; cases hay <;> rfl
  | cons b bs ih =>
    intro hay
    cases hay with
    | nil => rfl
    | cons a as =>
      have hb : b ≠ '.' := hdot b (List.mem_cons_self b bs)
      have ih' := ih (fun c hc => hdot c (List.mem_cons_of_mem b hc)) as
      simp only [startsWithRe, startsWithChars, List.map_cons]
      rw [ih']
      congr 1
      simp only [hb, decide_eq_true_eq, Bool.false_and, Bool.false_or, decide_False,
        Bool.false_and]
      rw [decide_eq_decide]
      exact eq_comm

/-- On a dot-free pattern, the fragment matcher is the literal
case-insensitive substring test on the lowered lists. -/
theorem containsRe_eq (pat : List Char) (hdot : ∀ c ∈ pat, c ≠ '.') :
    ∀ hay, containsRe hay pat =
      containsChars (hay.map Char.toLower) (pat.map Char.toLower) := by
  intro hay
  induction hay with
  | nil =>
    show startsWithRe [] pat = startsWithChars [] (pat.map Char.toLower)
    exact startsWithRe_eq pat hdot []
  | cons a as ih =>
    simp only [containsRe, containsChars, List.map_cons]
    rw [startsWithRe_eq pat hdot (a :: as), ih]
    rfl

/-- On a metacharacter-free search string, the program's cell test is the
literal case-insensitive substring test. -/
theorem cellContainsRe_eq_CI (c : Cell) (s : String)
    (h : ∀ ch ∈ s.toList, reMeta ch = false) :
    cellContainsRe c s = cellContainsCI c s := by
  have hdot : ∀ ch ∈ s.toList, ch ≠ '.' := by
    intro ch hch heq
    have hm := h ch hch
    rw [heq] at hm
    exact absurd hm (by decide)
  cases c with
  | missing => rfl
  | num q => rfl
  | str v =>
    show containsRe v.toList s.toList = containsChars (strLower v).toList (strLower s).toList
    rw [containsRe_eq s.toList hdot v.toList]
    rfl

/-- On a metacharacter-free search string, the program's row mask is the
literal one. -/
theorem rowMatchesRe_eq (s : String) (h : ∀ ch ∈ s.toList, reMeta ch = false) (r : Row) :
    rowMatchesRe s r = rowMatches s r := by
  rw [rowMatchesRe, rowMatches, cellContainsRe_eq_CI _ _ h, cellContainsRe_eq_CI _ _ h]

/-- On a metacharacter-free search string, the program's Filtered View is the
literal-substring one. -/
theorem filteredRowsRe_eq (s : String) (h : ∀ ch ∈ s.toList, reMeta ch = false)
    (rows : List Row) : filteredRowsRe s rows = filteredRows s rows := by
  rw [filteredRowsRe, filteredRows]
  exact List.filter_congr (fun r _ => rowMatchesRe_eq s h r)

/-- C5 counterexample: at the search string "." the program's filter keeps
the Gender-"Female" row (the regex wildcard matches any character), yet "."
occurs in neither Gender nor Occupation as a literal substring — so the
claimed for-all-search-strings substring characterization of the Filtered
View is false at this dataset, search string and row. -/
theorem c5_counterexample :
    rowF ∈ filteredRowsRe "." [rowF] ∧
    ¬((∃ g, getCell rowF "Gender" = Cell.str g ∧
        ∃ pre post, (strLower g).toList = pre ++ (strLower ".").toList ++ post) ∨
      (∃ o, getCell rowF "Occupation" = Cell.str o ∧
        ∃ pre post, (strLower o).toList = pre ++ (strLower ".").toList ++ post)) := by
  refine ⟨by decide, ?_⟩
  rintro (⟨g, hg, hsub⟩ | ⟨o, ho, hsub⟩)
  · have hgf : Cell.str "Female" = Cell.str g := by
      rw [← hg]; decide
    injection hgf with hgf'
    subst hgf'
    have hcontra := (containsChars_iff (strLower "Female").toList (strLower ".").toList).2 hsub
    exact absurd hcontra (by decide)
  · have hof : Cell.str "Artist" = Cell.str o := by
      rw [← ho]; decide
    injection hof with hof'
    subst hof'
    have hcontra := (containsChars_iff (strLower "Artist").toList (strLower ".").toList).2 hsub
    exact absurd hcontra (by decide)

/-- C5 (amended): for every search string free of regex metacharacters —
the program interprets the search text as a regular expression, so only
there does it perform a substring search — the Filtered View holds exactly
the rows whose Gender or Occupation cell contains the search text
case-insensitively; an empty search keeps every row with a textual Gender
cell; searching "MALE" over a "Male" row and a "Female" row keeps both
(male is a substring of female, case folded). -/
theorem c5_report_search_amended :
    (∀ (d : RawTable) (s : String), (∀ ch ∈ s.toList, reMeta ch = false) →
        ∀ r : Row,
          r ∈ filteredRowsRe s d.rows ↔
            r ∈ d.rows ∧
              ((∃ g, getCell r "Gender" = Cell.str g ∧
                  ∃ pre post, (strLower g).toList = pre ++ (strLower s).toList ++ post) ∨
               (∃ o, getCell r "Occupation" = Cell.str o ∧
                  ∃ pre post, (strLower o).toList = pre ++ (strLower s).toList ++ post))) ∧
    (∀ (rows : List Row) (r : Row), r ∈ rows →
        (∃ g, getCell r "Gender" = Cell.str g) → r ∈ filteredRowsRe "" rows) ∧
    rowA ∈ filteredRowsRe "MALE" [rowA, rowF] ∧
    rowF ∈ filteredRowsRe "MALE" [rowA, rowF] := by
  have hempty : ∀ ch ∈ ("" : String).toList, reMeta ch = false := by
    intro ch hch
    exact absurd hch (List.not_mem_nil ch)
  refine ⟨fun d s hs r => ?_, fun rows r hr hg => ?_, by decide, by decide⟩
  · rw [filteredRowsRe_eq s hs, filteredRows, List.mem_filter]
    refine and_congr_right fun _ => ?_
    simp [rowMatches, Bool.or_eq_true, cellContainsCI_iff]
  · obtain ⟨g, hg⟩ := hg
    rw [filteredRowsRe_eq "" hempty]
    refine List.mem_filter.2 ⟨hr, ?_⟩
    rw [rowMatches, hg]
    have hc : cellContainsCI (Cell.str g) "" = true := by
      show containsChars (strLower g).toList (strLower "").toList = true
      exact containsChars_nil _
    rw [hc, Bool.true_or]

/-- C5 witness: the Female row is kept by the metacharacter-free search
"male" under the program's regex filter. -/
theorem c5_amended_witness : rowF ∈ filteredRowsRe "male" [rowF] :=
  (c5_report_search_amended.1 ⟨required_columns, [rowF]⟩ "male" (by decide) rowF).2
    ⟨by decide, Or.inl ⟨"Female", by decide, ['f', 'e'], [], by decide⟩⟩

/-- Scanner step: an ordinary character extends the current field. -/
theorem scan_step_other {c : Char} (cs : List Char) (acc : List Char)
    (l : List (List Char)) (t : List (List (List Char)))
    (h₁ : c ≠ '"') (h₂ : c ≠ ',') (h₃ : c ≠ '\n') :
    scanCSV (c :: cs) false acc l t = scanCSV cs false (acc ++ [c]) l t := by
  rw [scanCSV, if_neg h₁, if_neg h₂, if_neg h₃]

/-- Scanner step: an opening quote enters quoted mode. -/
theorem scan_step_quote_open (cs : List Char) (acc : List Char)
    (l : List (List Char)) (t : List (List (List Char))) :
    scanCSV ('"' :: cs) false acc l t = scanCSV cs true acc l t := by
  rw [scanCSV, if_pos rfl]

/-- Scanner step: a comma closes the current field. -/
theorem scan_step_comma (cs : List Char) (acc : List Char)
    (l : List (List Char)) (t : List (List (List Char))) :
    scanCSV (',' :: cs) false acc l t = scanCSV cs false [] (l ++ [acc]) t := by
  rw [scanCSV, if_neg (by decide : ¬(',' = '"')), if_pos rfl]

/-- Scanner step: a newline closes the current record. -/
theorem scan_step_newline (cs : List Char) (acc : List Char)
    (l : List (List Char)) (t : List (List (List Char))) :
    scanCSV ('\n' :: cs) false acc l t = scanCSV cs false [] [] (t ++ [l ++ [acc]]) := by
  rw [scanCSV, if_neg (by decide : ¬('\n' = '"')), if_neg (by decide : ¬('\n' = ',')),
    if_pos rfl]

/-- Scanner step: inside quotes, an ordinary character extends the field. -/
theorem scan_step_inq_other {c : Char} (c₂ : Char) (cs : List Char) (acc : List Char)
    (l : List (List Char)) (t : List (List (List Char))) (h : c ≠ '"') :
    scanCSV (c :: c₂ :: cs) true acc l t = scanCSV (c₂ :: cs) true (acc ++ [c]) l t := by
  rw [scanCSV, if_neg h]

/-- Scanner step: inside quotes, a final ordinary character is flushed. -/
theorem scan_step_inq_other_end {c : Char} (acc : List Char)
    (l : List (List Char)) (t : List (List (List Char))) (h : c ≠ '"') :
    scanCSV [c] true acc l t = t ++ [l ++ [acc ++ [c]]] := by
  rw [scanCSV, if_neg h]

/-- Scanner step: a doubled quote inside quotes is a literal quote. -/
theorem scan_step_inq_esc (cs : List Char) (acc : List Char)
    (l : List (List Char)) (t : List (List (List Char))) :
    scanCSV ('"' :: '"' :: cs) true acc l t = scanCSV cs true (acc ++ ['"']) l t := by
  rw [scanCSV, if_pos rfl, if_pos rfl]

/-- Scanner step: a closing quote before an ordinary character leaves quoted
mode. -/
theorem scan_step_inq_close {c₂ : Char} (cs : List Char) (acc : List Char)
    (l : List (List Char)) (t : List (List (List Char))) (h : c₂ ≠ '"') :
    scanCSV ('"' :: c₂ :: cs) true acc l t = scanCSV (c₂ :: cs) false acc l t := by
  rw [scanCSV, if_pos rfl, if_neg h]

/-- Scanner step: a closing quote at end of input behaves like end of input. -/
theorem scan_step_inq_close_end (acc : List Char)
    (l : List (List Char)) (t : List (List (List Char))) :
    scanCSV ['"'] true acc l t = scanCSV [] false acc l t := by
  simp [scanCSV]

/-- Escaping a leading quote doubles it. -/
theorem escField_quote (f : List Char) : escField ('"' :: f) = '"' :: '"' :: escField f := by
  rw [escField]
  simp

/-- Escaping leaves an ordinary leading character alone. -/
theorem escField_other {c : Char} (h : c ≠ '"') (f : List Char) :
    escField (c :: f) = c :: escField f := by
  rw [escField, if_neg h]

/-- The scanner passes over a special-character-free block, accumulating it
onto the current field. -/
theorem scan_safe_block (f : List Char) (h : ∀ c ∈ f, specialChar c = false) :
    ∀ cs acc l t, scanCSV (f ++ cs) false acc l t = scanCSV cs false (acc ++ f) l t := by
  induction f with
  | nil => intro cs acc l t; simp
  | cons c f ih =>
    intro cs acc l t
    have hc := h c (List.mem_cons_self c f)
    simp only [specialChar, Bool.or_eq_false_iff, decide_eq_false_iff_not] at hc
    obtain ⟨⟨h₁, h₂⟩, h₃⟩ := hc
    rw [List.cons_append, scan_step_other _ _ _ _ h₂ h₁ h₃,
      ih (fun c' hc' => h c' (List.mem_cons_of_mem c hc')) cs (acc ++ [c]) l t,
      ← List.append_cons]

/-- The scanner consumes an escaped field body followed by the closing
quote, accumulating the unescaped body. -/
theorem scan_quoted (f : List Char) :
    ∀ cs acc l t, cs.head? ≠ some '"' →
      scanCSV (escField f ++ '"' :: cs) true acc l t = scanCSV cs false (acc ++ f) l t := by
  induction f with
  | nil =>
    intro cs acc l t hcs
    simp only [escField, List.nil_append]
    cases cs with
    | nil => rw [scan_step_inq_close_end, List.append_nil]
    | cons c₂ cs₂ =>
      have hc₂ : c₂ ≠ '"' := by simpa using hcs
      rw [scan_step_inq_close _ _ _ _ hc₂, List.append_nil]
  | cons c f ih =>
    intro cs acc l t hcs
    by_cases hc : c = '"'
    · subst hc
      rw [escField_quote, List.cons_append, List.cons_append, scan_step_inq_esc,
        ih cs (acc ++ ['"']) l t hcs, ← List.append_cons]
    · rw [escField_other hc]
      have hne : escField f ++ '"' :: cs ≠ [] := by simp
      obtain ⟨e, es, heq⟩ := List.exists_cons_of_ne_nil hne
      rw [List.cons_append, heq, scan_step_inq_other _ _ _ _ _ hc, ← heq,
        ih cs (acc ++ [c]) l t hcs, ← List.append_cons]

/-- The scanner consumes one encoded field, leaving it as the current field. -/
theorem scan_enc_field (f : List Char) (cs : List Char) (l : List (List Char))
    (t : List (List (List Char))) (h : cs.head? ≠ some '"') :
    scanCSV (encField f ++ cs) false [] l t = scanCSV cs false f l t := by
  by_cases hq : fieldNeedsQuote f
  · rw [encField, if_pos hq, List.cons_append, List.append_assoc]
    have hsingle : ['"'] ++ cs = '"' :: cs := rfl
    rw [hsingle, scan_step_quote_open, scan_quoted f cs [] l t h, List.nil_append]
  · rw [encField, if_neg hq]
    have hsafe : ∀ c ∈ f, specialChar c = false := by
      intro c hc
      by_contra hcc
      apply hq
      rw [fieldNeedsQuote, List.any_eq_true]
      refine ⟨c, hc, ?_⟩
      revert hcc
      cases specialChar c <;> simp
    rw [scan_safe_block f hsafe cs [] l t, List.nil_append]

/-- The scanner consumes one encoded record and its newline, appending the
record to the output. -/
theorem scan_enc_line : ∀ (fs : List (List Char)) cs l t, fs ≠ [] →
    scanCSV (encLine fs ++ '\n' :: cs) false [] l t =
      scanCSV cs false [] [] (t ++ [l ++ fs])
  | [], _, _, _, hne => absurd rfl hne
  | [f], cs, l, t, _ => by
    simp only [encLine]
    rw [scan_enc_field f ('\n' :: cs) l t (by simp), scan_step_newline]
  | f :: f₂ :: fs₂, cs, l, t, _ => by
    simp only [encLine, List.append_assoc, List.cons_append]
    rw [scan_enc_field f (',' :: (encLine (f₂ :: fs₂) ++ '\n' :: cs)) l t (by simp),
      scan_step_comma, scan_enc_line (f₂ :: fs₂) cs (l ++ [f]) t (by simp),
      ← List.append_cons]

/-- The scanner decodes a whole encoded table. -/
theorem scan_enc_table : ∀ (ls : List (List (List Char))) t, (∀ l ∈ ls, l ≠ []) →
    scanCSV (encTable ls) false [] [] t = t ++ ls
  | [], t, _ => by simp [encTable, scanCSV]
  | l :: ls, t, h => by
    rw [encTable]
    rw [scan_enc_line l (encTable ls) [] t (h l (List.mem_cons_self l ls))]
    rw [scan_enc_table ls (t ++ [[] ++ l]) (fun l' hl' => h l' (List.mem_cons_of_mem l hl'))]
    simp

/-- Decoding inverts encoding for any table whose records are nonempty. -/
theorem decodeCSV_encodeCSV (tbl : List (List String)) (h : ∀ row ∈ tbl, row ≠ []) :
    decodeCSV (encodeCSV tbl) = tbl := by
  have h' : ∀ l ∈ tbl.map (fun row => row.map String.toList), l ≠ [] := by
    intro l hl
    obtain ⟨row, hrow, rfl⟩ := List.mem_map.1 hl
    simp only [ne_eq, List.map_eq_nil_iff]
    exact h row hrow
  show (scanCSV (encTable (tbl.map (fun row => row.map String.toList))) false [] [] []).map
      (fun row => row.map (fun cs => (⟨cs⟩ : String))) = tbl
  rw [scan_enc_table _ [] h', List.nil_append, List.map_map]
  have hid : ∀ row : List String,
      ((fun row : List (List Char) => row.map (fun cs => (⟨cs⟩ : String))) ∘
        (fun row : List String => row.map String.toList)) row = row := by
    intro row
    simp only [Function.comp_apply, List.map_map]
    exact List.map_id'' (fun s => rfl) row
  exact (List.map_congr_left (fun row _ => hid row)).trans (List.map_id tbl)

/-- A successfully loaded dataset still carries every required column. -/
theorem loader_header (t d : RawTable) (h : loadDataset t = Except.ok d) :
    ∀ c ∈ required_columns, c ∈ d.header := by
  rw [loadDataset] at h
  split at h
  · next hcond =>
    injection h with h'
    rw [← h']
    intro c hc
    by_contra hnc
    have hmem : c ∈ missing_cols (trimTable t) := by
      rw [missing_cols, List.mem_filter]
      exact ⟨hc, by simpa using hnc⟩
    rw [List.isEmpty_iff.1 hcond] at hmem
    exact List.not_mem_nil c hmem
  · exact absurd h (by simp)

/-- C6: the Reports page always exports the full (unfiltered) dataset as the
bare CSV text with nothing prepended, under the fixed name
"Anxiety_Report.csv", independently of the search state, and re-parsing the
exported text reproduces the dataset's printed table row for row. -/
theorem c6_export_roundtrip (t d : RawTable) (h : loadDataset t = Except.ok d) :
    (∀ s, reportsPage (some d) s = some (filteredRows s d.rows, exportCSV d)) ∧
    (∀ s₁ s₂, (reportsPage (some d) s₁).map Prod.snd =
        (reportsPage (some d) s₂).map Prod.snd) ∧
    exportCSV d = encodeCSV (tableOf d) ∧
    decodeCSV (exportCSV d) = tableOf d ∧
    reportFileName = "Anxiety_Report.csv" := by
  have hhdr : d.header ≠ [] := by
    have hg := loader_header t d h "Gender" (by decide)
    intro hnil
    rw [hnil] at hg
    exact List.not_mem_nil _ hg
  refine ⟨fun s => rfl, fun s₁ s₂ => rfl, rfl, ?_, rfl⟩
  rw [exportCSV]
  apply decodeCSV_encodeCSV
  intro row hrow
  rw [tableOf] at hrow
  rcases List.mem_cons.1 hrow with rfl | hmem
  · exact hhdr
  · obtain ⟨r, -, rfl⟩ := List.mem_map.1 hmem
    simp only [ne_eq, List.map_eq_nil_iff]
    exact hhdr

/-- C6 witness: the loaded one-row dataset's export decodes back to its
printed table. -/
theorem c6_witness :
    decodeCSV (exportCSV ⟨required_columns, [rowA]⟩) = tableOf ⟨required_columns, [rowA]⟩ :=
  (c6_export_roundtrip tableA ⟨required_columns, [rowA]⟩ (by decide)).2.2.2.1

end Anxiety
